import Mathlib

/-!
Verification of the intel-camera-quality-analysis pipeline: a shallow
embedding of `build_intel_quality_dataset.py` (directory walk, per-class
sampling cap, metric extraction, CSV persistence) and
`analyze_intel_quality.py` (threshold classification and pass/fail
aggregation), with theorems about the embedded definitions.

Image pixel metrics (brightness, contrast) are real-valued in the scripts;
they are modelled as rationals.  `classify_row` performs only order
comparisons against the integer thresholds 60, 200, 20, which IEEE floats
decide exactly, so the rational model is faithful for classification.
Metric extraction itself (PIL decode + numpy statistics) is modelled as an
oracle `String → Option (ℚ × ℚ)`: `compute_brightness_and_contrast`
returns `(brightness, contrast)` on success and `(None, None)` when the
image cannot be read or decoded, which is exactly an `Option` result.
-/

namespace IntelQuality

/-! ## Classifier (`analyze_intel_quality.py`) -/

/-- Threshold below which an image is "too dark" (line 64). -/
def BRIGHTNESS_MIN : ℚ := 60

/-- Threshold above which an image is "too bright / washed out" (line 65). -/
def BRIGHTNESS_MAX : ℚ := 200

/-- Threshold below which an image is "low contrast / flat" (line 66). -/
def CONTRAST_MIN : ℚ := 20

/-- A row of the DataFrame as `classify_row` reads it: only the
`Brightness` and `Contrast` columns are consulted. -/
structure Row where
  brightness : ℚ
  contrast : ℚ
deriving DecidableEq

/-- The `reasons` list built inside `classify_row` (lines 84-94): each of
the three conditions is checked in order and appends its tag. -/
def classify_reasons (row : Row) : List String :=
  let reasons : List String := []
  let reasons := if row.brightness < BRIGHTNESS_MIN then reasons ++ ["too_dark"] else reasons
  let reasons := if row.brightness > BRIGHTNESS_MAX then reasons ++ ["too_bright"] else reasons
  let reasons := if row.contrast < CONTRAST_MIN then reasons ++ ["low_contrast"] else reasons
  reasons

/-- `classify_row` (lines 68-105): returns `(status, reason_str)` where
`status` is "FAIL" exactly when some reason triggered, and `reason_str`
joins the reasons with semicolons ("" on PASS). -/
def classify_row (row : Row) : String × String :=
  let reasons := classify_reasons row
  if reasons ≠ [] then ("FAIL", String.intercalate ";" reasons)
  else ("PASS", "")

/-! ## Aggregation (`analyze_intel_quality.py`, lines 121-131) -/

/-- The count `total = len(df)` (line 121). -/
def totalOf (rows : List Row) : Nat := rows.length

/-- The count `failed = (df["Status"] == "FAIL").sum()` (line 122): how
many rows classify as "FAIL". -/
def failedOf (rows : List Row) : Nat :=
  (rows.filter fun r => (classify_row r).1 == "FAIL").length

/-- The count `passed = total - failed` (line 123). -/
def passedOf (rows : List Row) : Nat := totalOf rows - failedOf rows

/-- The rate `(failed / total * 100) if total > 0 else 0.0` (line 126). -/
def failure_rate (rows : List Row) : ℚ :=
  if totalOf rows > 0 then (failedOf rows : ℚ) / (totalOf rows : ℚ) * 100 else 0

/-! ## Dataset builder (`build_intel_quality_dataset.py`) -/

/-- Joining of paths as `os.path.join` does on the reference platform. -/
def pathJoin (a b : String) : String := a ++ "/" ++ b

/-- The configured training directory, `os.path.join("seg_train", "seg_train")`
(line 28). -/
def TRAIN_DIR : String := pathJoin "seg_train" "seg_train"

/-- Lowercasing of a string as Python's `str.lower` does for ASCII names:
each character lowered individually. -/
def strToLower (s : String) : String := ⟨s.data.map Char.toLower⟩

/-- Suffix test on strings as Python's `str.endswith`: the last characters
of `s` are exactly `suffix` (false when `s` is shorter). -/
def strEndsWith (s suffix : String) : Bool :=
  s.data.drop (s.data.length - suffix.data.length) == suffix.data

/-- Eligibility test of line 129: the lowercased filename ends with
".jpg", ".jpeg" or ".png". -/
def hasImageExt (filename : String) : Bool :=
  strEndsWith (strToLower filename) ".jpg"
    || strEndsWith (strToLower filename) ".jpeg"
    || strEndsWith (strToLower filename) ".png"

/-- One row of the built table (the dict of lines 143-149). -/
structure ImageRecord where
  image_id : Nat
  filepath : String
  label : String
  brightness : ℚ
  contrast : ℚ
deriving DecidableEq

/-- One entry of the root directory listing: its name, and `some files`
(the directory's own listing, in native order) when it is a directory,
`none` otherwise. -/
abbrev DirEntry := String × Option (List String)

/-- The input tree as the builder observes it through `os`: whether
`TRAIN_DIR` is a directory, and its entries. -/
structure FS where
  root_isdir : Bool
  entries : List DirEntry

/-- Lexicographic comparison of character lists by code point. -/
def charsLe : List Char → List Char → Bool
  | [], _ => true
  | _ :: _, [] => false
  | a :: as, b :: bs =>
    if a.toNat < b.toNat then true
    else if b.toNat < a.toNat then false
    else charsLe as bs

/-- Lexicographic comparison of strings by code point, the order Python's
`sorted` applies to `os.listdir` results (line 109). -/
def strLe (a b : String) : Bool := charsLe a.data b.data

/-- Stable insertion of an entry into a name-sorted entry list. -/
def insertEntry (e : DirEntry) : List DirEntry → List DirEntry
  | [] => [e]
  | f :: fs => if strLe e.1 f.1 then e :: f :: fs else f :: insertEntry e fs

/-- Name-sorting of the root listing, modelling `sorted(os.listdir(...))`
(line 109): a stable sort by the lexicographic order on names (any stable
sort computes the same list, so insertion sort is a faithful model). -/
def sortEntries : List DirEntry → List DirEntry
  | [] => []
  | e :: es => insertEntry e (sortEntries es)

/-- The inner loop of `main` over one class directory (lines 120-156):
walks `files` carrying the global `image_id` and the per-class `count`;
stops once `count` reaches `cap`; skips ineligible names; asks the
extraction oracle and, on success, emits a record and advances both
counters, on failure continues with neither advanced.  Returns the emitted
records and the final `image_id`. -/
def processClassDir (extract : String → Option (ℚ × ℚ)) (cap : Nat)
    (class_dir label : String) :
    List String → Nat → Nat → List ImageRecord × Nat
  | [], image_id, _ => ([], image_id)
  | filename :: rest, image_id, count =>
    if cap ≤ count then ([], image_id)
    else if !(hasImageExt filename) then
      processClassDir extract cap class_dir label rest image_id count
    else
      match extract (pathJoin class_dir filename) with
      | none => processClassDir extract cap class_dir label rest image_id count
      | some (b, c) =>
        let tail := processClassDir extract cap class_dir label rest (image_id + 1) (count + 1)
        (⟨image_id, pathJoin class_dir filename, label, b, c⟩ :: tail.1, tail.2)

/-- The outer loop of `main` over the sorted root listing (lines 109-156):
non-directory entries are skipped (line 114); each directory entry is one
label, processed with a fresh `count = 0` and the carried `image_id`. -/
def processLabels (extract : String → Option (ℚ × ℚ)) (cap : Nat) :
    List DirEntry → Nat → List ImageRecord
  | [], _ => []
  | (_, none) :: rest, image_id => processLabels extract cap rest image_id
  | (label, some files) :: rest, image_id =>
    (processClassDir extract cap (pathJoin TRAIN_DIR label) label files image_id 0).1
      ++ processLabels extract cap rest
          (processClassDir extract cap (pathJoin TRAIN_DIR label) label files image_id 0).2

/-- `main` of the builder (lines 84-167) up to persistence: `none` when
`TRAIN_DIR` is not a directory (lines 96-99, the early return before any
output), otherwise the ordered record collection built from the sorted
listing starting at `image_id = 0`. -/
def build (fs : FS) (extract : String → Option (ℚ × ℚ)) (cap : Nat) :
    Option (List ImageRecord) :=
  if fs.root_isdir = false then none
  else some (processLabels extract cap (sortEntries fs.entries) 0)

/-- Header fields of the CSV written by `df.to_csv` (lines 158-165):
`pandas.DataFrame` built from a list of dicts takes its columns from the
dict keys, but built from the empty list it has no columns at all, so the
persisted CSV then carries no header fields. -/
def dfColumns (rows : List ImageRecord) : List String :=
  if rows.isEmpty then []
  else ["Image_ID", "Filepath", "Label", "Brightness", "Contrast"]

/-- The persisted output of a builder run: `none` when the run aborts on a
missing root, otherwise the CSV header together with the data rows. -/
def buildOutput (fs : FS) (extract : String → Option (ℚ × ℚ)) (cap : Nat) :
    Option (List String × List ImageRecord) :=
  (build fs extract cap).map fun recs => (dfColumns recs, recs)

/-- Paths of the files of a class directory that are eligible and extract
successfully, in scan order: the images a run with no cap would record. -/
def successPaths (extract : String → Option (ℚ × ℚ)) (class_dir : String)
    (files : List String) : List String :=
  (files.filter fun f => hasImageExt f && (extract (pathJoin class_dir f)).isSome).map
    (pathJoin class_dir)

/-! ## Concrete fixtures used by the witness theorems -/

/-- Extraction oracle of the fixtures: fails on one specific file of label
"b", succeeds with brightness 30 and contrast 10 everywhere else. -/
def extractW (path : String) : Option (ℚ × ℚ) :=
  if path = pathJoin (pathJoin TRAIN_DIR "b") "bad.jpg" then none else some (30, 10)

/-- Fixture tree: two labels listed out of order, one unreadable image,
one ineligible file and one stray non-directory entry. -/
def fsW : FS :=
  ⟨true, [("b", some ["1.jpg", "bad.jpg", "notes.txt", "2.JPG", "3.jpg"]),
          ("a", some ["x.png"]), ("stray", none)]⟩

/-- The records the fixture run with `images_per_class = 2` accepts. -/
def recsW : List ImageRecord := (build fsW extractW 2).getD []

/-- Fixture tree whose configured root is missing. -/
def fsNoRoot : FS := ⟨false, [("a", some ["x.jpg"])]⟩

/-- Fixture tree whose root exists but holds no entries at all. -/
def fsEmptyRoot : FS := ⟨true, []⟩

/-! ## Order lemmas for the listing sort -/

theorem charsLe_refl (a : List Char) : charsLe a a = true := by
  induction a with
  | nil => rfl
  | cons x xs ih => simp [charsLe, ih]

theorem charsLe_total (a b : List Char) : charsLe a b = true ∨ charsLe b a = true := by
  induction a generalizing b with
  | nil => left; rfl
  | cons x xs ih =>
    cases b with
    | nil => right; rfl
    | cons y ys =>
      by_cases h1 : x.toNat < y.toNat
      · left; simp [charsLe, h1]
      · by_cases h2 : y.toNat < x.toNat
        · right; simp [charsLe, h2]
        · rcases ih ys with h | h
          · left; simp [charsLe, h1, h2, h]
          · right; simp [charsLe, h1, h2, h]

theorem charsLe_trans {a b c : List Char} (hab : charsLe a b = true)
    (hbc : charsLe b c = true) : charsLe a c = true := by
  induction a generalizing b c with
  | nil => rfl
  | cons x xs ih =>
    cases b with
    | nil => simp [charsLe] at hab
    | cons y ys =>
      cases c with
      | nil => simp [charsLe] at hbc
      | cons z zs =>
        simp only [charsLe] at hab hbc ⊢
        split_ifs at hab hbc ⊢ <;> first
          | rfl
          | omega
          | exact ih hab hbc

theorem strLe_refl (a : String) : strLe a a = true := charsLe_refl a.data

theorem strLe_total (a b : String) : strLe a b = true ∨ strLe b a = true :=
  charsLe_total a.data b.data

theorem strLe_trans {a b c : String} (hab : strLe a b = true)
    (hbc : strLe b c = true) : strLe a c = true := charsLe_trans hab hbc

theorem insertEntry_perm (e : DirEntry) (l : List DirEntry) :
    List.Perm (insertEntry e l) (e :: l) := by
  induction l with
  | nil => simp [insertEntry]
  | cons f fs ih =>
    by_cases h : strLe e.1 f.1
    · simp [insertEntry, h]
    · simp only [insertEntry, h]
      exact (ih.cons f).trans (List.Perm.swap e f fs)

theorem sortEntries_perm (l : List DirEntry) : List.Perm (sortEntries l) l := by
  induction l with
  | nil => simp [sortEntries]
  | cons e es ih => exact (insertEntry_perm e (sortEntries es)).trans (ih.cons e)

theorem insertEntry_pairwise {e : DirEntry} {l : List DirEntry}
    (h : List.Pairwise (fun a b => strLe a.1 b.1 = true) l) :
    List.Pairwise (fun a b => strLe a.1 b.1 = true) (insertEntry e l) := by
  induction l with
  | nil => simp [insertEntry]
  | cons f fs ih =>
    rcases List.pairwise_cons.1 h with ⟨hf, hfs⟩
    by_cases hef : strLe e.1 f.1 = true
    · simp only [insertEntry, hef, if_pos]
      refine List.pairwise_cons.2 ⟨?_, List.pairwise_cons.2 ⟨hf, hfs⟩⟩
      intro x hx
      rcases List.mem_cons.1 hx with rfl | hx
      · exact hef
      · exact strLe_trans hef (hf x hx)
    · have hfe : strLe f.1 e.1 = true := by
        rcases strLe_total e.1 f.1 with h1 | h1
        · exact absurd h1 hef
        · exact h1
      simp only [insertEntry, hef, if_neg, Bool.not_eq_true]
      refine List.pairwise_cons.2 ⟨?_, ih hfs⟩
      intro x hx
      have hx' : x ∈ e :: fs := ((insertEntry_perm e fs).subset hx)
      rcases List.mem_cons.1 hx' with rfl | hx'
      · exact hfe
      · exact hf x hx'

theorem sortEntries_pairwise (l : List DirEntry) :
    List.Pairwise (fun a b => strLe a.1 b.1 = true) (sortEntries l) := by
  induction l with
  | nil => simp [sortEntries]
  | cons e es ih => exact insertEntry_pairwise ih

/-! ## Step equations of the per-class loop -/

theorem processClassDir_stop {extract : String → Option (ℚ × ℚ)} {cap : Nat}
    {class_dir label f : String} {rest : List String} {id count : Nat}
    (hc : cap ≤ count) :
    processClassDir extract cap class_dir label (f :: rest) id count = ([], id) := by
  simp [processClassDir, hc]

theorem processClassDir_skip_ext {extract : String → Option (ℚ × ℚ)} {cap : Nat}
    {class_dir label f : String} {rest : List String} {id count : Nat}
    (hc : ¬ cap ≤ count) (he : hasImageExt f = false) :
    processClassDir extract cap class_dir label (f :: rest) id count
      = processClassDir extract cap class_dir label rest id count := by
  simp [processClassDir, hc, he]

theorem processClassDir_skip_fail {extract : String → Option (ℚ × ℚ)} {cap : Nat}
    {class_dir label f : String} {rest : List String} {id count : Nat}
    (hc : ¬ cap ≤ count) (he : hasImageExt f = true)
    (hx : extract (pathJoin class_dir f) = none) :
    processClassDir extract cap class_dir label (f :: rest) id count
      = processClassDir extract cap class_dir label rest id count := by
  simp [processClassDir, hc, he, hx]

theorem processClassDir_success {extract : String → Option (ℚ × ℚ)} {cap : Nat}
    {class_dir label f : String} {rest : List String} {id count : Nat} {b c : ℚ}
    (hc : ¬ cap ≤ count) (he : hasImageExt f = true)
    (hx : extract (pathJoin class_dir f) = some (b, c)) :
    processClassDir extract cap class_dir label (f :: rest) id count
      = (⟨id, pathJoin class_dir f, label, b, c⟩ ::
          (processClassDir extract cap class_dir label rest (id + 1) (count + 1)).1,
         (processClassDir extract cap class_dir label rest (id + 1) (count + 1)).2) := by
  simp [processClassDir, hc, he, hx]

/-! ## Lemmas about the per-class loop -/

theorem processClassDir_paths (extract : String → Option (ℚ × ℚ)) (cap : Nat)
    (class_dir label : String) (files : List String) (id count : Nat) :
    ((processClassDir extract cap class_dir label files id count).1).map (fun r => r.filepath)
      = (successPaths extract class_dir files).take (cap - count) := by
  induction files generalizing id count with
  | nil => simp [processClassDir, successPaths]
  | cons f rest ih =>
    by_cases hc : cap ≤ count
    · have hz : cap - count = 0 := by omega
      rw [processClassDir_stop hc, hz]
      simp
    · by_cases he : hasImageExt f
      · rcases hx : extract (pathJoin class_dir f) with _ | ⟨b, c⟩
        · rw [processClassDir_skip_fail hc he hx]
          simp [successPaths, List.filter_cons, he, hx, ih]
        · have hstep : cap - count = (cap - (count + 1)) + 1 := by omega
          rw [processClassDir_success hc he hx, hstep]
          simp only [successPaths, List.filter_cons, he, hx, Option.isSome_some,
            Bool.and_true, List.map_cons, List.take_succ_cons]
          simpa [successPaths] using ih (id + 1) (count + 1)
      · rw [processClassDir_skip_ext hc (by simpa using he)]
        simp [successPaths, List.filter_cons, he, ih]

theorem processClassDir_length (extract : String → Option (ℚ × ℚ)) (cap : Nat)
    (class_dir label : String) (files : List String) (id : Nat) :
    ((processClassDir extract cap class_dir label files id 0).1).length
      = min cap (successPaths extract class_dir files).length := by
  have h := congrArg List.length (processClassDir_paths extract cap class_dir label files id 0)
  simpa [List.length_take] using h

theorem processClassDir_label (extract : String → Option (ℚ × ℚ)) (cap : Nat)
    (class_dir label : String) (files : List String) (id count : Nat) :
    ∀ r ∈ (processClassDir extract cap class_dir label files id count).1, r.label = label := by
  induction files generalizing id count with
  | nil => simp [processClassDir]
  | cons f rest ih =>
    by_cases hc : cap ≤ count
    · rw [processClassDir_stop hc]; simp
    · by_cases he : hasImageExt f
      · rcases hx : extract (pathJoin class_dir f) with _ | ⟨b, c⟩
        · rw [processClassDir_skip_fail hc he hx]
          exact ih id count
        · rw [processClassDir_success hc he hx]
          intro r hr
          rcases List.mem_cons.1 hr with rfl | hr
          · rfl
          · exact ih (id + 1) (count + 1) r hr
      · rw [processClassDir_skip_ext hc (by simpa using he)]
        exact ih id count

theorem processClassDir_ids (extract : String → Option (ℚ × ℚ)) (cap : Nat)
    (class_dir label : String) (files : List String) (id count : Nat) :
    ((processClassDir extract cap class_dir label files id count).1).map (fun r => r.image_id)
      = List.range' id ((processClassDir extract cap class_dir label files id count).1).length
    ∧ (processClassDir extract cap class_dir label files id count).2
      = id + ((processClassDir extract cap class_dir label files id count).1).length := by
  induction files generalizing id count with
  | nil => simp [processClassDir]
  | cons f rest ih =>
    by_cases hc : cap ≤ count
    · rw [processClassDir_stop hc]; simp
    · by_cases he : hasImageExt f
      · rcases hx : extract (pathJoin class_dir f) with _ | ⟨b, c⟩
        · rw [processClassDir_skip_fail hc he hx]
          exact ih id count
        · have hih := ih (id + 1) (count + 1)
          rw [processClassDir_success hc he hx]
          simp only [List.map_cons, List.length_cons]
          refine ⟨?_, ?_⟩
          · rw [List.range'_succ, hih.1]
          · rw [hih.2]
            omega
      · rw [processClassDir_skip_ext hc (by simpa using he)]
        exact ih id count

theorem successPaths_isSome (extract : String → Option (ℚ × ℚ)) (class_dir : String)
    (files : List String) :
    ∀ p ∈ successPaths extract class_dir files, (extract p).isSome = true := by
  intro p hp
  simp only [successPaths, List.mem_map, List.mem_filter, Bool.and_eq_true] at hp
  rcases hp with ⟨f, ⟨_, _, hsome⟩, rfl⟩
  exact hsome

/-! ## Lemmas about the outer loop -/

theorem processLabels_ids (extract : String → Option (ℚ × ℚ)) (cap : Nat)
    (entries : List DirEntry) (id : Nat) :
    (processLabels extract cap entries id).map (fun r => r.image_id)
      = List.range' id (processLabels extract cap entries id).length := by
  induction entries generalizing id with
  | nil => simp [processLabels]
  | cons e rest ih =>
    rcases e with ⟨label, _ | files⟩
    · simpa [processLabels] using ih id
    · simp only [processLabels, List.map_append, List.length_append]
      rw [(processClassDir_ids extract cap (pathJoin TRAIN_DIR label) label files id 0).1,
        ih, (processClassDir_ids extract cap (pathJoin TRAIN_DIR label) label files id 0).2]
      have := List.range'_append id
        ((processClassDir extract cap (pathJoin TRAIN_DIR label) label files id 0).1).length
        ((processLabels extract cap rest
          ((processClassDir extract cap (pathJoin TRAIN_DIR label) label files id 0).2)).length) 1
      simp only [one_mul] at this
      rw [(processClassDir_ids extract cap (pathJoin TRAIN_DIR label) label files id 0).2] at this
      rw [this, Nat.add_comm]

theorem processLabels_mem (extract : String → Option (ℚ × ℚ)) (cap : Nat)
    (entries : List DirEntry) (id : Nat) :
    ∀ r ∈ processLabels extract cap entries id, ∃ files, (r.label, some files) ∈ entries := by
  induction entries generalizing id with
  | nil => simp [processLabels]
  | cons e rest ih =>
    rcases e with ⟨label, _ | files⟩
    · intro r hr
      rcases ih id r (by simpa [processLabels] using hr) with ⟨fl, hfl⟩
      exact ⟨fl, List.mem_cons_of_mem _ hfl⟩
    · intro r hr
      rcases List.mem_append.1 (by simpa [processLabels] using hr) with h | h
      · refine ⟨files, ?_⟩
        rw [processClassDir_label extract cap (pathJoin TRAIN_DIR label) label files id 0 r h]
        exact List.mem_cons_self _ _
      · rcases ih _ r h with ⟨fl, hfl⟩
        exact ⟨fl, List.mem_cons_of_mem _ hfl⟩

theorem processLabels_sorted (extract : String → Option (ℚ × ℚ)) (cap : Nat)
    (entries : List DirEntry) (id : Nat)
    (h : List.Pairwise (fun a b => strLe a.1 b.1 = true) entries) :
    List.Pairwise (fun a b => strLe a b = true)
      ((processLabels extract cap entries id).map fun r => r.label) := by
  induction entries generalizing id with
  | nil => simp [processLabels]
  | cons e rest ih =>
    rcases e with ⟨label, _ | files⟩
    · simpa [processLabels] using ih id (List.Pairwise.of_cons h)
    · rcases List.pairwise_cons.1 h with ⟨hhead, htail⟩
      simp only [processLabels, List.map_append]
      refine List.pairwise_append.2 ⟨?_, ih _ htail, ?_⟩
      · refine List.pairwise_of_forall_mem_list ?_
        intro a ha b hb
        rcases List.mem_map.1 ha with ⟨r, hr, rfl⟩
        rcases List.mem_map.1 hb with ⟨s, hs, rfl⟩
        rw [processClassDir_label extract cap (pathJoin TRAIN_DIR label) label files id 0 r hr,
          processClassDir_label extract cap (pathJoin TRAIN_DIR label) label files id 0 s hs]
        exact strLe_refl label
      · intro a ha b hb
        rcases List.mem_map.1 ha with ⟨r, hr, rfl⟩
        rcases List.mem_map.1 hb with ⟨s, hs, rfl⟩
        rw [processClassDir_label extract cap (pathJoin TRAIN_DIR label) label files id 0 r hr]
        rcases processLabels_mem extract cap rest _ s hs with ⟨fl, hfl⟩
        exact hhead (s.label, some fl) hfl

theorem processLabels_filter_label_le (extract : String → Option (ℚ × ℚ)) (cap : Nat)
    (entries : List DirEntry) (id : Nat) (label : String)
    (hnd : (entries.map Prod.fst).Nodup) :
    ((processLabels extract cap entries id).filter fun r => r.label == label).length ≤ cap := by
  induction entries generalizing id with
  | nil => simp [processLabels]
  | cons e rest ih =>
    rcases e with ⟨name, _ | files⟩
    · simpa [processLabels] using ih id (by simpa using hnd.of_cons)
    · rw [List.map_cons, List.nodup_cons] at hnd
      have hnd' : (rest.map Prod.fst).Nodup := hnd.2
      have hname : name ∉ rest.map Prod.fst := hnd.1
      simp only [processLabels, List.filter_append, List.length_append]
      by_cases heq : name = label
      · subst heq
        have htail : ((processLabels extract cap rest
            ((processClassDir extract cap (pathJoin TRAIN_DIR name) name files id 0).2)).filter
              fun r => r.label == name) = [] := by
          rw [List.filter_eq_nil_iff]
          intro r hr
          rcases processLabels_mem extract cap rest _ r hr with ⟨fl, hfl⟩
          have : r.label ∈ rest.map Prod.fst := List.mem_map.2 ⟨(r.label, some fl), hfl, rfl⟩
          have hne : r.label ≠ name := fun hcontra => hname (hcontra ▸ this)
          simpa using hne
        rw [htail]
        have hlen : ((processClassDir extract cap (pathJoin TRAIN_DIR name) name files id 0).1).length ≤ cap := by
          rw [processClassDir_length]
          exact Nat.min_le_left _ _
        calc ((
            (processClassDir extract cap (pathJoin TRAIN_DIR name) name files id 0).1).filter
              fun r => r.label == name).length + ([] : List ImageRecord).length
            ≤ ((processClassDir extract cap (pathJoin TRAIN_DIR name) name files id 0).1).length + 0 := by
              simpa using List.length_filter_le _ _
          _ ≤ cap := by simpa using hlen
      · have hblock : (((processClassDir extract cap (pathJoin TRAIN_DIR name) name files id 0).1).filter
            fun r => r.label == label) = [] := by
          rw [List.filter_eq_nil_iff]
          intro r hr
          have := processClassDir_label extract cap (pathJoin TRAIN_DIR name) name files id 0 r hr
          simpa [this] using heq
        rw [hblock]
        simpa using ih _ hnd'

/-! ## Density of the assigned ids -/

theorem ids_dense_get {l : List ImageRecord} {s : Nat}
    (h : l.map (fun r => r.image_id) = List.range' s l.length) :
    ∀ i, ∀ hi : i < l.length, (l.get ⟨i, hi⟩).image_id = s + i := by
  induction l generalizing s with
  | nil => intro i hi; exact absurd hi (by simp)
  | cons r rest ih =>
    intro i hi
    rw [List.length_cons, List.range'_succ, List.map_cons] at h
    have hhead : r.image_id = s := (List.cons.injEq _ _ _ _ ▸ h).1
    have htail : rest.map (fun r => r.image_id) = List.range' (s + 1) rest.length :=
      (List.cons.injEq _ _ _ _ ▸ h).2
    cases i with
    | zero => simpa [List.get] using hhead
    | succ j =>
      have := ih htail j (by simpa using Nat.lt_of_succ_lt_succ hi)
      simpa [List.get, Nat.add_comm, Nat.add_assoc, Nat.add_left_comm] using this

/-! ## The claims -/

/-- C1: the classifier uses strict inequalities against the fixed
thresholds: `too_dark` is appended exactly when brightness < 60,
`too_bright` exactly when brightness > 200, `low_contrast` exactly when
contrast < 20; in particular equality at a threshold adds no reason. -/
theorem classify_row_strict_thresholds (row : Row) :
    ("too_dark" ∈ classify_reasons row ↔ row.brightness < 60)
    ∧ ("too_bright" ∈ classify_reasons row ↔ row.brightness > 200)
    ∧ ("low_contrast" ∈ classify_reasons row ↔ row.contrast < 20) := by
  unfold classify_reasons BRIGHTNESS_MIN BRIGHTNESS_MAX CONTRAST_MIN
  split_ifs with h1 h2 h3 <;> simp_all

/-- C2: status = "FAIL" exactly when the reason list is non-empty, and the
serialized reason string is empty exactly when status = "PASS"
(lines 96-105). -/
theorem classify_row_fail_iff_reasons (row : Row) :
    ((classify_row row).1 = "FAIL" ↔ classify_reasons row ≠ [])
    ∧ ((classify_row row).2 = "" ↔ (classify_row row).1 = "PASS") := by
  unfold classify_row classify_reasons BRIGHTNESS_MIN BRIGHTNESS_MAX CONTRAST_MIN
  split_ifs <;> simp_all <;> decide

/-- C3: every produced reason list is a sublist of the fixed evaluation
order [too_dark, too_bright, low_contrast]; the serialized form joins it
with semicolons in that order; and the concrete record brightness = 30,
contrast = 10 yields exactly ["too_dark", "low_contrast"] with status
"FAIL" serialized as "too_dark;low_contrast". -/
theorem classify_row_reason_order :
    (∀ row : Row, List.Sublist (classify_reasons row) ["too_dark", "too_bright", "low_contrast"])
    ∧ (∀ row : Row, (classify_row row).2 = String.intercalate ";" (classify_reasons row)
        ∨ (classify_row row).2 = "")
    ∧ classify_reasons ⟨30, 10⟩ = ["too_dark", "low_contrast"]
    ∧ classify_row ⟨30, 10⟩ = ("FAIL", "too_dark;low_contrast") := by
  refine ⟨?_, ?_, by decide, by decide⟩
  · intro row
    unfold classify_reasons BRIGHTNESS_MIN BRIGHTNESS_MAX CONTRAST_MIN
    split_ifs <;> simp
  · intro row
    by_cases h : classify_reasons row = []
    · right; simp [classify_row, h]
    · left; simp [classify_row, h]

/-- C10: `too_dark` and `too_bright` are mutually exclusive (brightness
cannot be < 60 and > 200 at once), so the only reason lists the classifier
can produce are [], [too_dark], [too_bright], [low_contrast],
[too_dark, low_contrast] and [too_bright, low_contrast]. -/
theorem classify_reasons_combinations (row : Row) :
    (¬ ("too_dark" ∈ classify_reasons row ∧ "too_bright" ∈ classify_reasons row))
    ∧ classify_reasons row ∈ ([[], ["too_dark"], ["too_bright"], ["low_contrast"],
        ["too_dark", "low_contrast"], ["too_bright", "low_contrast"]] : List (List String)) := by
  unfold classify_reasons BRIGHTNESS_MIN BRIGHTNESS_MAX CONTRAST_MIN
  split_ifs with h1 h2 h3 <;> first
    | (exact absurd (h2.trans h1) (by norm_num))
    | decide

/-- C4: per label the builder emits at most `cap` records, and the number
emitted for one class directory is exactly the smaller of `cap` and the
number of eligible files whose extraction succeeds — a failed extraction
neither counts toward the cap nor consumes a slot, and once the cap is
reached no further file of the label is admitted. -/
theorem build_per_label_cap (fs : FS) (extract : String → Option (ℚ × ℚ)) (cap : Nat)
    (recs : List ImageRecord) (h : build fs extract cap = some recs)
    (hnd : (fs.entries.map Prod.fst).Nodup) :
    (∀ label, ((recs.filter fun r => r.label == label).length ≤ cap))
    ∧ ∀ class_dir label files id,
        ((processClassDir extract cap class_dir label files id 0).1).length
          = min cap (successPaths extract class_dir files).length := by
  constructor
  · intro label
    rcases hroot : fs.root_isdir with _ | _
    · simp [build, hroot] at h
    · have hrecs : recs = processLabels extract cap (sortEntries fs.entries) 0 := by
        simp [build, hroot] at h
        exact h.symm
      have hnd' : ((sortEntries fs.entries).map Prod.fst).Nodup :=
        (((sortEntries_perm fs.entries).map Prod.fst).nodup_iff).2 hnd
      rw [hrecs]
      exact processLabels_filter_label_le extract cap (sortEntries fs.entries) 0 label hnd'
  · intro class_dir label files id
    exact processClassDir_length extract cap class_dir label files id

/-- C4 witness: in the fixture run with cap 2, label "b" has three
eligible files of which one fails extraction, and exactly 2 records are
kept for it. -/
theorem build_per_label_cap_witness :
    ((recsW.filter fun r => r.label == "b").length ≤ 2)
    ∧ ((processClassDir extractW 2 (pathJoin TRAIN_DIR "b") "b"
        ["1.jpg", "bad.jpg", "notes.txt", "2.JPG", "3.jpg"] 1 0).1).length
      = min 2 (successPaths extractW (pathJoin TRAIN_DIR "b")
          ["1.jpg", "bad.jpg", "notes.txt", "2.JPG", "3.jpg"]).length :=
  ⟨(build_per_label_cap fsW extractW 2 recsW (by decide) (by decide)).1 "b",
   (build_per_label_cap fsW extractW 2 recsW (by decide) (by decide)).2
     (pathJoin TRAIN_DIR "b") "b" ["1.jpg", "bad.jpg", "notes.txt", "2.JPG", "3.jpg"] 1⟩

/-- C5: in every successful build the accepted records carry the dense
image ids 0, 1, 2, ... in acceptance order (the record at position i has
image_id i, so a failed extraction never advances the id), the label
column is sorted in the lexicographic order in which subdirectories are
visited, and every record's label names a directory entry of the root
(non-directory entries contribute nothing). -/
theorem build_image_id_dense_sorted (fs : FS) (extract : String → Option (ℚ × ℚ))
    (cap : Nat) (recs : List ImageRecord) (h : build fs extract cap = some recs) :
    (recs.map fun r => r.image_id) = List.range' 0 recs.length
    ∧ (∀ i, ∀ hi : i < recs.length, (recs.get ⟨i, hi⟩).image_id = i)
    ∧ List.Pairwise (fun a b => strLe a b = true) (recs.map fun r => r.label)
    ∧ ∀ r ∈ recs, ∃ files, (r.label, some files) ∈ fs.entries := by
  rcases hroot : fs.root_isdir with _ | _
  · simp [build, hroot] at h
  · have hrecs : recs = processLabels extract cap (sortEntries fs.entries) 0 := by
      simp [build, hroot] at h
      exact h.symm
    subst hrecs
    have hids := processLabels_ids extract cap (sortEntries fs.entries) 0
    refine ⟨hids, ?_, ?_, ?_⟩
    · intro i hi
      simpa using ids_dense_get hids i hi
    · exact processLabels_sorted extract cap (sortEntries fs.entries) 0
        (sortEntries_pairwise fs.entries)
    · intro r hr
      rcases processLabels_mem extract cap (sortEntries fs.entries) 0 r hr with ⟨fl, hfl⟩
      exact ⟨fl, (sortEntries_perm fs.entries).subset hfl⟩

/-- C5 witness: the fixture run accepts three records with ids 0, 1, 2,
its labels appear sorted ("a" before "b"), and both labels are directory
entries of the fixture tree. -/
theorem build_image_id_dense_sorted_witness :
    ((recsW.map fun r => r.image_id) = List.range' 0 recsW.length)
    ∧ List.Pairwise (fun a b => strLe a b = true) (recsW.map fun r => r.label) :=
  ⟨(build_image_id_dense_sorted fsW extractW 2 recsW (by decide)).1,
   (build_image_id_dense_sorted fsW extractW 2 recsW (by decide)).2.2.1⟩

/-- C6: when the configured root is missing or not a directory the builder
aborts before producing anything: no table (not even a header) and no
record. -/
theorem build_missing_root_no_output (fs : FS) (extract : String → Option (ℚ × ℚ))
    (cap : Nat) (h : fs.root_isdir = false) :
    buildOutput fs extract cap = none ∧ build fs extract cap = none := by
  simp [buildOutput, build, h]

/-- C6 witness: the fixture with a missing root produces nothing. -/
theorem build_missing_root_no_output_witness :
    buildOutput fsNoRoot extractW 100 = none ∧ build fsNoRoot extractW 100 = none :=
  build_missing_root_no_output fsNoRoot extractW 100 rfl

/-- C7: a failed extraction is skipped, not fatal: the recorded filepaths
of a class scan are exactly the first `cap` eligible-and-successful paths,
and a file whose extraction returns the error value never appears among
the records. -/
theorem processClassDir_skips_failures (extract : String → Option (ℚ × ℚ)) (cap : Nat)
    (class_dir label : String) (files : List String) :
    (((processClassDir extract cap class_dir label files 0 0).1).map (fun r => r.filepath)
      = (successPaths extract class_dir files).take cap)
    ∧ ∀ f ∈ files, hasImageExt f = true → extract (pathJoin class_dir f) = none →
        pathJoin class_dir f ∉
          ((processClassDir extract cap class_dir label files 0 0).1).map fun r => r.filepath := by
  have hpaths := processClassDir_paths extract cap class_dir label files 0 0
  rw [Nat.sub_zero] at hpaths
  refine ⟨hpaths, ?_⟩
  intro f _ _ hx hmem
  rw [hpaths] at hmem
  have hsome := successPaths_isSome extract class_dir files _ (List.take_subset _ _ hmem)
  rw [hx] at hsome
  simp at hsome

/-- C8: the aggregate counts satisfy passed + failed = total, and the
failure rate is failed / total * 100, taken as 0 when total = 0. -/
theorem summary_counts_consistent (rows : List Row) :
    (passedOf rows + failedOf rows = totalOf rows)
    ∧ failure_rate rows
      = (if totalOf rows = 0 then 0 else (failedOf rows : ℚ) / (totalOf rows : ℚ) * 100) := by
  constructor
  · have hle : failedOf rows ≤ totalOf rows := List.length_filter_le _ _
    simp only [passedOf]
    omega
  · rcases Nat.eq_zero_or_pos (totalOf rows) with h | h
    · simp [failure_rate, h]
    · simp [failure_rate, h, Nat.pos_iff_ne_zero.1 h]

/-- C9: with zero successfully processed images the builder's persisted
table has no header fields at all — `pandas.DataFrame` of an empty row
list has no columns — instead of the required five-column header row. -/
theorem empty_build_writes_no_header :
    buildOutput fsEmptyRoot extractW 100 = some ([], [])
    ∧ dfColumns [] ≠ ["Image_ID", "Filepath", "Label", "Brightness", "Contrast"] := by
  constructor
  · decide
  · decide

end IntelQuality
